import Mathlib

/-!
Verification of the document assembly and cross-reference resolution
pipeline of the common-pile arXiv source, against its specification.

Shallow embedding of:
  - src/sources/arxiv/from_latex/hf-to-dolma.py
      (skip_file, read_file, interpolate_document, and the per-article
       loop body of process_articles_from_gzipped_directory)
  - src/sources/arxiv/from_latex/parse_arxiv.py
      (read_file_content, replace_inputs, parse_citations, and the
       document-start-marker split step of extract_text_from_latex)

Text is modelled as `List Char` inside the scanners and as `String` at
the interfaces.  Python sets are modelled as `List String` with
membership semantics (`setAdd` inserts only when absent).  File systems
and tar archives are modelled as association lists from path to
`Option String`, where `none` means the bytes cannot be read or
decoded (the external best-effort decoder of charset_normalizer is out
of scope per the spec and is treated as part of that failure mode).

Recursive text scanners take an explicit fuel argument so that every
definition is structurally recursive and therefore evaluable by the
kernel (`decide` / `rfl`); wrappers always supply fuel that exceeds the
length of the scanned text, and each scanner step consumes at least one
character, so the fuel never runs out on the wrapper path.
-/

/-! ## Python character classes and basic string helpers -/

/-- Python regex `\s` / `str.isspace`, restricted to the Latin-1 range
(the wider Unicode space category is irrelevant to the claims). -/
def pyIsSpace (c : Char) : Bool :=
  c = ' ' || c = '\t' || c = '\n' || c = '\x0b' || c = '\x0c' || c = '\r' ||
  c = '\x1c' || c = '\x1d' || c = '\x1e' || c = '\x1f' || c = '\x85' || c = '\xa0'

/-- Characters splitting lines for Python `str.splitlines`, restricted to
the Latin-1 range. -/
def pyIsLineBreak (c : Char) : Bool :=
  c = '\n' || c = '\r' || c = '\x0b' || c = '\x0c' ||
  c = '\x1c' || c = '\x1d' || c = '\x1e' || c = '\x85'

/-- Python `str.strip()` on a character list: drop whitespace from both
ends. -/
def pyStripList (l : List Char) : List Char :=
  ((l.dropWhile pyIsSpace).reverse.dropWhile pyIsSpace).reverse

/-- Python `str.strip(chars)` for a character predicate: drop matching
characters from both ends. -/
def pyStripCharsList (p : Char → Bool) (l : List Char) : List Char :=
  ((l.dropWhile p).reverse.dropWhile p).reverse

/-- Last index of a character in a list, if any. -/
def lastIdxOf (c : Char) : List Char → Option Nat
  | [] => none
  | a :: as =>
    match lastIdxOf c as with
    | some i => some (i + 1)
    | none => if a = c then some 0 else none

/-! ## os.path helpers (posixpath semantics) -/

/-- `os.path.splitext`: split off the extension at the last dot of the
base name, unless every character between the last path separator and
that dot is itself a dot (leading dots of a hidden file are not an
extension).  Returns `(root, ext)`. -/
def pySplitext (p : String) : String × String :=
  let l := p.toList
  match lastIdxOf '.' l with
  | none => (p, "")
  | some d =>
    let fi : Nat :=
      match lastIdxOf '/' l with
      | none => 0
      | some s => s + 1
    if fi ≤ d ∧ ((l.drop fi).take (d - fi)).any (fun c => c ≠ '.') then
      (String.mk (l.take d), String.mk (l.drop d))
    else (p, "")

/-- Root part of `os.path.splitext`. -/
def pySplitextRoot (p : String) : String := (pySplitext p).1

/-- Extension part of `os.path.splitext`. -/
def pySplitextExt (p : String) : String := (pySplitext p).2

/-- `os.path.dirname`: everything before the last `/`, with trailing
slashes stripped unless the head is all slashes. -/
def pyDirname (p : String) : String :=
  let l := p.toList
  match lastIdxOf '/' l with
  | none => ""
  | some i =>
    let head := l.take (i + 1)
    if head.any (fun c => c ≠ '/') then
      String.mk (head.reverse.dropWhile (fun c => c = '/')).reverse
    else String.mk head

/-- `os.path.join a b` for the shapes reachable here: `b` absolute wins;
otherwise concatenate with a single separator. -/
def pyJoin (a b : String) : String :=
  if b.toList.head? = some '/' then b
  else if a = "" || a.toList.getLast? = some '/' then a ++ b
  else a ++ "/" ++ b

/-- `os.path.relpath p start`, modelled for the member-name shapes
produced by `get_article_subdirectories` (every member name either
equals the article id or extends it by `/`); other inputs are passed
through unchanged (Python would produce a `..`-relative path there,
which likewise never satisfies the top-level-file tests of the loop). -/
def pyRelpath (p start : String) : String :=
  if p = start then "."
  else if (start.toList ++ ['/']).isPrefixOf p.toList then
    String.mk (p.toList.drop (start.toList.length + 1))
  else p

/-- ASCII lowercasing of a string (Python `str.lower`; the extensions
compared against `".tex"` are ASCII). -/
def pyLower (s : String) : String :=
  String.mk (s.toList.map Char.toLower)

/-- Split a character list at every occurrence of a character, keeping
empty parts (Python `str.split(sep)` for a one-character separator). -/
def splitCharGo (sep : Char) : List Char → List Char → List (List Char)
  | [], cur => [cur.reverse]
  | c :: rest, cur =>
    if c = sep then cur.reverse :: splitCharGo sep rest []
    else splitCharGo sep rest (c :: cur)

/-- Python `s.split(sep)` for a single-character separator. -/
def pySplitChar (sep : Char) (l : List Char) : List (List Char) :=
  splitCharGo sep l []

/-- `name.split("/")[1]`, the article-id component of a member name
(member names are grouped only when they contain a `/`, so index 1
exists on all reachable inputs; we default to `""`). -/
def secondComp (name : String) : String :=
  String.mk ((pySplitChar '/' name.toList).getD 1 [])

/-- Substring test on character lists: `needle` occurs contiguously in
`hay`. -/
def listHasInfix (needle : List Char) : List Char → Bool
  | [] => needle.isEmpty
  | c :: cs => needle.isPrefixOf (c :: cs) || listHasInfix needle cs

/-- Python `needle in hay` substring test. -/
def pyContains (needle hay : String) : Bool :=
  listHasInfix needle.toList hay.toList

/-! ## hf-to-dolma.py: data model -/

/-- One member of the gzipped tar archive: a path plus its decoded
content, `none` when extraction or decoding raises
(hf-to-dolma.py:74-84 catches every exception of that read). -/
structure TarMember where
  name : String
  content : Option String
deriving DecidableEq

/-- `tarfile.TarFile.getmember`: look a member up by exact name;
CPython returns the LAST member carrying the name.  `none` models the
`KeyError` that the caller catches. -/
def tarGetMember (tar : List TarMember) (path : String) : Option TarMember :=
  (tar.filter (fun m => m.name = path)).getLast?

/-- hf-to-dolma.py:74-84 `read_file`: returns the decoded contents, or
`""` when the read or decode raises (the warning log is a side effect
outside the embedding). -/
def read_file (m : TarMember) : String :=
  m.content.getD ""

/-- hf-to-dolma.py:64-71 `skip_file`: check whether `filename.ext` or
just `filename` is in `to_skip`. -/
def skip_file (filename : String) (to_skip : List String) : Bool :=
  to_skip.contains filename || to_skip.contains (pySplitextRoot filename)

/-- Python `set.add` on the exclusion set modelled as a list with set
membership semantics. -/
def setAdd (s : List String) (x : String) : List String :=
  if s.contains x then s else s ++ [x]

/-! ## hf-to-dolma.py: the inclusion scanner

The directive pattern of `interpolate_document` (line 96) is

  `^[^\S\n]*[^\S%]*?(?P<cmd>\\input{(?P<filename>.*?)})`  (MULTILINE)

At a line-start anchor the greedy `[^\S\n]*` and the lazy `[^\S%]*?`
together consume exactly the whitespace run (newlines included, since
`[^\S%]` is all of `\s`) up to the first non-space character, which
must then begin `\input{`; the lazy `.*?` takes the shortest
newline-free run up to a closing `}`.  `finditer` resumes after each
match and `^` holds at the string start and after each `'\n'`.
-/

/-- The literal `\input{` (7 characters). -/
def inputHead : List Char := '\\' :: 'i' :: 'n' :: 'p' :: 'u' :: 't' :: '\x7b' :: []

/-- Attempt the `interpolate_document` directive pattern at a line-start
anchor.  On success returns `(cmd, filename, rest)` where `cmd` is the
`\input{...}` group (without the consumed leading whitespace) and
`rest` is the text after the match. -/
def matchInputAt (l : List Char) : Option (List Char × List Char × List Char) :=
  let afterWs := l.dropWhile pyIsSpace
  if inputHead.isPrefixOf afterWs then
    let r := afterWs.drop 7
    let fn := r.takeWhile (fun c => c ≠ '\x7d' && c ≠ '\n')
    match r.drop fn.length with
    | '\x7d' :: tail => some (inputHead ++ fn ++ ['\x7d'], fn, tail)
    | _ => none
  else none

/-- Scanner body of hf-to-dolma.py:87-131 `interpolate_document`.
`atLS` tracks whether the current position is a line start (`^` under
MULTILINE).  On a match: look the target up as
`os.path.join(article_id, splitext(filename)[0] + ".tex")`; if found,
splice the member's `read_file` contents and add the member name to the
exclusion set; otherwise (the `except` branch of lines 122-127) splice
back only the `cmd` group.  Text outside matches is copied through. -/
def interpGo (tar : List TarMember) (aid : String) :
    Nat → Bool → List Char → List String → List Char × List String
  | 0, _, _, skip => ([], skip)
  | _ + 1, _, [], skip => ([], skip)
  | fuel + 1, atLS, c :: cs, skip =>
    if atLS then
      match matchInputAt (c :: cs) with
      | some (cmd, fn, rest) =>
        let path := pyJoin aid (pySplitextRoot (String.mk fn) ++ ".tex")
        match tarGetMember tar path with
        | some m =>
          let contents := read_file m
          let (out, skip2) := interpGo tar aid fuel false rest (setAdd skip m.name)
          (contents.toList ++ out, skip2)
        | none =>
          let (out, skip2) := interpGo tar aid fuel false rest skip
          (cmd ++ out, skip2)
      | none =>
        let (out, skip2) := interpGo tar aid fuel (c = '\n') cs skip
        (c :: out, skip2)
    else
      let (out, skip2) := interpGo tar aid fuel (c = '\n') cs skip
      (c :: out, skip2)

/-- hf-to-dolma.py:87-131 `interpolate_document`. -/
def interpolate_document (contents : String) (tar : List TarMember)
    (skip : List String) (aid : String) : String × List String :=
  let (out, skip2) := interpGo tar aid (contents.toList.length + 1) true contents.toList skip
  (String.mk out, skip2)

/-- Whether the `interpolate_document` directive pattern matches
anywhere (same scan as `interpGo`, deciding matches only). -/
def hasInputMatchGo : Nat → Bool → List Char → Bool
  | 0, _, _ => false
  | _ + 1, _, [] => false
  | fuel + 1, atLS, c :: cs =>
    if atLS then
      match matchInputAt (c :: cs) with
      | some _ => true
      | none => hasInputMatchGo fuel (c = '\n') cs
    else hasInputMatchGo fuel (c = '\n') cs

/-- Whether a string contains an occurrence of the
`interpolate_document` inclusion-directive pattern. -/
def hasInputDirective (s : String) : Bool :=
  hasInputMatchGo (s.toList.length + 1) true s.toList

/-! ## hf-to-dolma.py: the per-article loop -/

/-- The document-start marker literal of hf-to-dolma.py:192/206. -/
def beginDocMarker : String := String.mk ('\\' :: 'b' :: 'e' :: 'g' :: 'i' :: 'n' :: '\x7b' :: 'd' :: 'o' :: 'c' :: 'u' :: 'm' :: 'e' :: 'n' :: 't' :: '\x7d' :: [])

/-- hf-to-dolma.py:183-186: the member is a `.tex` file at the root of
the article subdirectory. -/
def isTopLevelTex (aid name : String) : Bool :=
  pyLower (pySplitextExt (pyRelpath name aid)) = ".tex" &&
  pyDirname (pyRelpath name aid) = ""

/-- hf-to-dolma.py:197-200: the member itself is the article path and
carries the `.tex` extension. -/
def isSelfTex (aid name : String) : Bool :=
  pyLower (pySplitextExt name) = ".tex" && pyRelpath name aid = "."

/-- A member that the loop will emit when reached with an exclusion set
not containing it: one of the two branch guards holds and the decoded
content contains the document-start marker. -/
def isRootCandidate (aid : String) (m : TarMember) : Bool :=
  (isTopLevelTex aid m.name || isSelfTex aid m.name) &&
  pyContains beginDocMarker (read_file m)

/-- Loop body of hf-to-dolma.py:149-210
`process_articles_from_gzipped_directory` for one article: iterate the
article's members threading the per-article exclusion set, and collect
the yielded `(documentId, text)` pairs. -/
def processMembers (tar : List TarMember) (aid : String) :
    List TarMember → List String → List (String × String)
  | [], _ => []
  | info :: rest, skip =>
    if skip_file info.name skip then processMembers tar aid rest skip
    else if isTopLevelTex aid info.name then
      let contents := read_file info
      if pyContains beginDocMarker contents then
        let (content, skip2) := interpolate_document contents tar skip aid
        (secondComp info.name, content) :: processMembers tar aid rest skip2
      else processMembers tar aid rest skip
    else if isSelfTex aid info.name then
      let contents := read_file info
      if pyContains beginDocMarker contents then
        let (content, skip2) := interpolate_document contents tar skip aid
        ((secondComp info.name).dropRight 4, content) :: processMembers tar aid rest skip2
      else processMembers tar aid rest skip
    else processMembers tar aid rest skip

/-! ## parse_arxiv.py: reading and inclusion resolution

The file system visible to `read_file_content` / `replace_inputs` is an
association list from path to `Option String`: an absent entry is a
missing file (`os.path.exists` false / `FileNotFoundError`), an entry
with `none` is a file whose bytes cannot be decoded even by the
lenient fallback (every read path of parse_arxiv.py:49-67 then
returns `""`).
-/

/-- The modelled file system. -/
def FileSys := List (String × Option String)

/-- `os.path.exists`. -/
def fsExists (fs : FileSys) (path : String) : Bool :=
  (fs.filterMap (fun e => if e.1 = path then some e.2 else none)) ≠ []

/-- Look a path up in the file system. -/
def fsLookup (fs : FileSys) (path : String) : Option (Option String) :=
  (fs.filterMap (fun e => if e.1 = path then some e.2 else none)).head?

/-- parse_arxiv.py:49-67 `read_file_content`: decoded contents on
success, `""` when the file is missing or every decode path fails. -/
def read_file_content (filepath : String) (fs : FileSys) : String :=
  match fsLookup fs filepath with
  | some (some c) => c
  | some none => ""
  | none => ""

/-- Character class `[a-zA-Z0-9_-]` of the `replace_inputs` pattern. -/
def isInputNameChar (c : Char) : Bool :=
  ('a' ≤ c && c ≤ 'z') || ('A' ≤ c && c ≤ 'Z') || ('0' ≤ c && c ≤ '9') ||
  c = '_' || c = '-'

/-- Attempt the `replace_inputs` pattern `\\input\{([a-zA-Z0-9_-]+)\}`
at the current position.  Returns `(filename, rest)`. -/
def matchAlnumInputAt (l : List Char) : Option (List Char × List Char) :=
  if inputHead.isPrefixOf l then
    let r := l.drop 7
    let fn := r.takeWhile isInputNameChar
    if fn.isEmpty then none
    else
      match r.drop fn.length with
      | '\x7d' :: tail => some (fn, tail)
      | _ => none
  else none

/-- Scanner of parse_arxiv.py:70-83 `replace_inputs` (`re.sub` over the
input pattern): each match is replaced by the target file's contents
when the target exists, and by the matched text itself otherwise. -/
def replaceInputsGo (baseDir : String) (fs : FileSys) :
    Nat → List Char → List Char
  | 0, l => l
  | _ + 1, [] => []
  | fuel + 1, c :: cs =>
    match matchAlnumInputAt (c :: cs) with
    | some (fn, rest) =>
      let filename := if (String.mk fn).endsWith ".tex" then String.mk fn
                      else String.mk fn ++ ".tex"
      let filepath := pyJoin baseDir filename
      let repl := if fsExists fs filepath then (read_file_content filepath fs).toList
                  else inputHead ++ fn ++ ['\x7d']
      repl ++ replaceInputsGo baseDir fs fuel rest
    | none => c :: replaceInputsGo baseDir fs fuel cs

/-- parse_arxiv.py:70-83 `replace_inputs`. -/
def replace_inputs (latex : String) (baseDir : String) (fs : FileSys) : String :=
  String.mk (replaceInputsGo baseDir fs (latex.toList.length + 1) latex.toList)

/-- Whether the `replace_inputs` pattern matches anywhere. -/
def hasAlnumInputGo : Nat → List Char → Bool
  | 0, _ => false
  | _ + 1, [] => false
  | fuel + 1, c :: cs =>
    match matchAlnumInputAt (c :: cs) with
    | some _ => true
    | none => hasAlnumInputGo fuel cs

/-- Whether a string contains an occurrence of the `replace_inputs`
inclusion-directive pattern. -/
def hasAlnumInputDirective (s : String) : Bool :=
  hasAlnumInputGo (s.toList.length + 1) s.toList

/-! ## parse_arxiv.py: parse_citations — reference table -/

/-- The literal `\bibitem` (8 characters). -/
def bibitemHead : List Char := '\\' :: 'b' :: 'i' :: 'b' :: 'i' :: 't' :: 'e' :: 'm' :: []

/-- Attempt the pattern `\\bibitem(?:\[([^\]]+)\])?\{([^}]+)\}` at the
current position.  Returns `(rawLabel, key, rest)` where `rawLabel` is
`[]` when the optional group is absent (re.findall yields `''` for a
non-participating group, and the code maps `''` to `None`). -/
def matchBibitemAt (l : List Char) : Option (List Char × List Char × List Char) :=
  if bibitemHead.isPrefixOf l then
    let r := l.drop 8
    match r with
    | '[' :: r2 =>
      let lab := r2.takeWhile (fun c => c ≠ ']')
      if lab.isEmpty then none
      else
        match r2.drop lab.length with
        | ']' :: r3 =>
          match r3 with
          | '\x7b' :: r4 =>
            let k := r4.takeWhile (fun c => c ≠ '\x7d')
            if k.isEmpty then none
            else
              match r4.drop k.length with
              | '\x7d' :: tail => some (lab, k, tail)
              | _ => none
          | _ => none
        | _ => none
    | '\x7b' :: r4 =>
      let k := r4.takeWhile (fun c => c ≠ '\x7d')
      if k.isEmpty then none
      else
        match r4.drop k.length with
        | '\x7d' :: tail => some ([], k, tail)
        | _ => none
    | _ => none
  else none

/-- `re.findall(bibitem_pattern, latex)` of parse_arxiv.py:89: the list
of `(rawLabel, key)` pairs, left to right, non-overlapping. -/
def findBibitemsGo : Nat → List Char → List (List Char × List Char)
  | 0, _ => []
  | _ + 1, [] => []
  | fuel + 1, c :: cs =>
    match matchBibitemAt (c :: cs) with
    | some (lab, k, rest) => (lab, k) :: findBibitemsGo fuel rest
    | none => findBibitemsGo fuel cs

/-- All `\bibitem` matches of a text. -/
def findBibitems (latex : String) : List (List Char × List Char) :=
  findBibitemsGo (latex.toList.length + 1) latex.toList

/-- Insert-or-overwrite preserving first-seen position: the Python dict
comprehension `{key: label if label else None for label, key in matches}`
(parse_arxiv.py:92) builds its entries this way. -/
def upsert (d : List (String × Option String)) (k : String) (v : Option String) :
    List (String × Option String) :=
  if d.any (fun e => e.1 = k) then
    d.map (fun e => if e.1 = k then (k, v) else e)
  else d ++ [(k, v)]

/-- parse_arxiv.py:92: build the key → optional-raw-label table in
first-seen key order, later duplicates overwriting the value. -/
def buildBib (ms : List (List Char × List Char)) : List (String × Option String) :=
  ms.foldl (fun d lk =>
    upsert d (String.mk lk.2) (if lk.1.isEmpty then none else some (String.mk lk.1))) []

/-! ## parse_arxiv.py: parse_citations — label rendering -/

/-- Python `str.splitlines` (Latin-1 approximation), with `\r\n`
counted as a single break and no empty trailing part. -/
def splitlinesGo : List Char → List Char → List (List Char)
  | [], cur => [cur.reverse]
  | '\r' :: '\n' :: rest, cur =>
    cur.reverse :: (if rest.isEmpty then [] else splitlinesGo rest [])
  | c :: rest, cur =>
    if pyIsLineBreak c then
      cur.reverse :: (if rest.isEmpty then [] else splitlinesGo rest [])
    else splitlinesGo rest (c :: cur)

/-- Python `str.splitlines`. -/
def pySplitlines (l : List Char) : List (List Char) :=
  if l.isEmpty then [] else splitlinesGo l []

/-- parse_arxiv.py:98: normalize a raw label,
`" ".join([l.strip() for l in label.splitlines()]).strip("{}")`. -/
def normalizeLabel (lab : String) : String :=
  String.mk (pyStripCharsList (fun c => c = '\x7b' || c = '\x7d')
    (List.intercalate [' '] ((pySplitlines lab.toList).map pyStripList)))

/-- A position `t` of `l` at which the `(\d{4})` group of the pattern
`(.+)\((\d{4})\)?(.+)?` can anchor: `t ≥ 1` (the greedy `(.+)` needs at
least one character before the `\(`), the character at `t` is `(` and
the four following characters are digits. -/
def yearCand (l : List Char) (t : Nat) : Bool :=
  1 ≤ t && (l.drop t).head? = some '(' &&
  ((l.drop (t + 1)).take 4).length = 4 && ((l.drop (t + 1)).take 4).all Char.isDigit

/-- `re.search(r"(.+)\((\d{4})\)?(.+)?", label)` of parse_arxiv.py:99.
The regex anchors at position 0 whenever it can match at all (a match
from a later start yields one from 0 by widening the greedy `(.+)`),
the greedy `(.+)` picks the LAST viable `(`-plus-4-digits position, and
the two optional tail groups never fail.  Returns
`(group 1, group 2) = (authors, year)`. -/
def labelSearch (l : List Char) : Option (List Char × List Char) :=
  (((List.range l.length).filter (yearCand l)).getLast?).map
    (fun t => (l.take t, (l.drop (t + 1)).take 4))

/-- parse_arxiv.py:94-108: render the label of the entry at 0-based
position `n` of the table.  `none` (no raw label) falls back to the
ordinal; otherwise the normalized label is searched for the author-year
pattern, a non-empty author group yields `"<authors.strip()>, <year>"`
(with the dead `n.d.` fallback of line 103 kept for fidelity), and
everything else falls back to the ordinal. -/
def labelEntry (n : Nat) (v : Option String) : String :=
  match v with
  | none => toString (n + 1)
  | some lab =>
    match labelSearch (normalizeLabel lab).toList with
    | some (authors, year) =>
      if authors.isEmpty then toString (n + 1)
      else
        let y := if year.isEmpty then "n.d." else String.mk year
        String.mk (pyStripList authors) ++ ", " ++ y
    | none => toString (n + 1)

/-- Enumerate-and-label from a starting ordinal (the
`for n, (key, label) in enumerate(bibitems.items())` loop of
parse_arxiv.py:94, value mutation only). -/
def labelAllFrom (n : Nat) : List (String × Option String) → List (String × String)
  | [] => []
  | (k, v) :: tl => (k, labelEntry n v) :: labelAllFrom (n + 1) tl

/-- The finished reference table of a document text. -/
def citationTable (latex : String) : List (String × String) :=
  labelAllFrom 0 (buildBib (findBibitems latex))

/-- Python dict lookup `bibitems[key]` / `bibitems.get(key)` on the
labelled table (keys are unique, so first match is the entry). -/
def tblLookup (d : List (String × String)) (k : String) : Option String :=
  (d.filterMap (fun e => if e.1 = k then some e.2 else none)).head?

/-! ## parse_arxiv.py: parse_citations — rewriting -/

/-- The narrative variant family of parse_arxiv.py:118. -/
def narrativeVariants : List String := ["citet", "citealt", "citealp"]

/-- parse_arxiv.py:110-121 `replace_cite`: the replacement for one
matched occurrence `\<variant>{<keysStr>}`.  All-or-nothing: if any
comma-separated key (stripped) is absent from the table the original
matched text is returned; otherwise the labels joined by `", "`,
bracketed except for the narrative variants. -/
def replace_cite (bibitems : List (String × String)) (variant keysStr : List Char) :
    List Char :=
  let keys := (pySplitChar ',' keysStr).map (fun k => String.mk (pyStripList k))
  if keys.all (fun k => (tblLookup bibitems k).isSome) then
    let citations := keys.map (fun k => (tblLookup bibitems k).getD "")
    if narrativeVariants.contains (String.mk variant) then
      (String.intercalate ", " citations).toList
    else '[' :: (String.intercalate ", " citations).toList ++ [']']
  else '\\' :: variant ++ '\x7b' :: keysStr ++ ['\x7d']

/-- Attempt the pattern `\\(cite[a-z]*)\{([^}]+)\}` of
parse_arxiv.py:123 at the current position.  Returns
`(variant, keysStr, rest)`. -/
def matchCiteAt (l : List Char) : Option (List Char × List Char × List Char) :=
  match l with
  | '\\' :: r =>
    if ('c' :: 'i' :: 't' :: 'e' :: []).isPrefixOf r then
      let tail := (r.drop 4).takeWhile (fun c => 'a' ≤ c && c ≤ 'z')
      let variant := 'c' :: 'i' :: 't' :: 'e' :: tail
      match (r.drop 4).drop tail.length with
      | '\x7b' :: r4 =>
        let ks := r4.takeWhile (fun c => c ≠ '\x7d')
        if ks.isEmpty then none
        else
          match r4.drop ks.length with
          | '\x7d' :: rest => some (variant, ks, rest)
          | _ => none
      | _ => none
    else none
  | _ => none

/-- `re.sub(cite_pattern, replace_cite, latex)` of parse_arxiv.py:124. -/
def subCiteGo (bibitems : List (String × String)) : Nat → List Char → List Char
  | 0, l => l
  | _ + 1, [] => []
  | fuel + 1, c :: cs =>
    match matchCiteAt (c :: cs) with
    | some (variant, ks, rest) =>
      replace_cite bibitems variant ks ++ subCiteGo bibitems fuel rest
    | none => c :: subCiteGo bibitems fuel cs

/-- `re.sub(bibitem_pattern, ..., latex)` of parse_arxiv.py:125: each
reference definition becomes `"[<label>]"`, falling back to the raw key
when it is unexpectedly absent from the table. -/
def subBibGo (bibitems : List (String × String)) : Nat → List Char → List Char
  | 0, l => l
  | _ + 1, [] => []
  | fuel + 1, c :: cs =>
    match matchBibitemAt (c :: cs) with
    | some (_, k, rest) =>
      '[' :: ((tblLookup bibitems (String.mk k)).getD (String.mk k)).toList ++
        [']'] ++ subBibGo bibitems fuel rest
    | none => c :: subBibGo bibitems fuel cs

/-- parse_arxiv.py:86-125 `parse_citations`: build the labelled table
from the text, rewrite every reference use, then rewrite every
reference definition. -/
def parse_citations (latex : String) : String :=
  let bibitems := citationTable latex
  let l2 := subCiteGo bibitems (latex.toList.length + 1) latex.toList
  String.mk (subBibGo bibitems (l2.length + 1) l2)

/-! ## parse_arxiv.py: the document-start split of extract_text_from_latex -/

/-- Leftmost occurrence index of `needle` in `hay`, if any. -/
def subIdx (needle : List Char) : List Char → Option Nat
  | [] => if needle.isEmpty then some 0 else none
  | c :: cs =>
    if needle.isPrefixOf (c :: cs) then some 0
    else (subIdx needle cs).map (· + 1)

/-- Python `str.split(sep)` for a non-empty separator: split at each
leftmost occurrence, non-overlapping, keeping empty parts. -/
def pySplitGo (sep : List Char) : Nat → List Char → List (List Char)
  | 0, s => [s]
  | fuel + 1, s =>
    match subIdx sep s with
    | none => [s]
    | some i => s.take i :: pySplitGo sep fuel (s.drop (i + sep.length))

/-- parse_arxiv.py:138-139: when the document-start marker occurs in the
text, keep only `latex.split(marker)[1]`. -/
def begin_document_split (latex : String) : String :=
  if pyContains beginDocMarker latex then
    String.mk ((pySplitGo beginDocMarker.toList (latex.toList.length + 1) latex.toList).getD 1 [])
  else latex

/-! ## Auxiliary lookups and claim-side definitions -/

/-- Python dict lookup on the raw (pre-labelling) table. -/
def bibValue (d : List (String × Option String)) (k : String) : Option (Option String) :=
  (d.filterMap (fun e => if e.1 = k then some e.2 else none)).head?

/-- The author-year pattern as claim C7 words it: an author list
followed by a 4-digit year, the year OPTIONALLY in parentheses.  This
definition follows the claim's words, not the source (the source
requires a literal `(` before the year); it exists only to exhibit
where the two disagree. -/
def claimAuthorYear (l : List Char) : Option (List Char × List Char) :=
  match ((List.range l.length).filter (fun t =>
      ((l.drop t).take 4).length = 4 && ((l.drop t).take 4).all Char.isDigit)).getLast? with
  | none => none
  | some t =>
    let pre := l.take t
    let authors := if pre.getLast? = some '(' then pre.dropLast else pre
    if authors.isEmpty then none else some (authors, (l.drop t).take 4)

/-! ## Concrete fixtures for counterexamples and scenario checks -/

/-- A minimal root-file text: the document-start marker plus a body. -/
def rootTex : String := beginDocMarker ++ "Body text"

/-- An article with two independent root candidates. -/
def tarTwoRoots : List TarMember :=
  [⟨"./a/p.tex", some rootTex⟩, ⟨"./a/q.tex", some rootTex⟩]

/-- An article whose single root file is named `main.tex`. -/
def tarMainOnly : List TarMember := [⟨"./art1/main.tex", some rootTex⟩]

/-- Root text for the inclusion scenario: marker, one `\input{sec1}`
directive on its own line, a tail line. -/
def mainSecText : String := beginDocMarker ++ "\n" ++ String.mk (inputHead ++ ('s' :: 'e' :: 'c' :: '1' :: '\x7d' :: [])) ++ "\nEnd here"

/-- The spec's exclusion-set scenario: root `main.tex` containing
`\input{sec1}` next to a sibling `sec1.tex` (a plain section file). -/
def tarMainSec : List TarMember :=
  [⟨"./a/main.tex", some mainSecText⟩, ⟨"./a/sec1.tex", some "Sec one body"⟩]

/-- The interpolated output of the `tarMainSec` scenario. -/
def mainSecOut : String := beginDocMarker ++ "\nSec one body\nEnd here"

/-- Root text referencing a member whose bytes cannot be read. -/
def mainBadText : String := beginDocMarker ++ "\n" ++ String.mk (inputHead ++ ('b' :: 'a' :: 'd' :: '\x7d' :: [])) ++ "\nEnd here"

/-- An article with an unreadable member that the root inlines. -/
def tarUnreadable : List TarMember :=
  [⟨"./a/main.tex", some mainBadText⟩, ⟨"./a/bad.tex", none⟩]

/-! # Helper lemmas -/

theorem string_mk_toList (s : String) : String.mk s.toList = s := by
  cases s; rfl

theorem contains_iff_mem (l : List String) (a : String) :
    l.contains a = true ↔ a ∈ l := by
  simp [List.contains, List.elem_iff]

theorem isPrefixOf_append_self (l₁ l₂ : List Char) :
    l₁.isPrefixOf (l₁ ++ l₂) = true := by
  rw [List.isPrefixOf_iff_prefix]; exact List.prefix_append _ _

theorem drop_takeWhile_length (p : Char → Bool) (l : List Char) :
    l.drop (l.takeWhile p).length = l.dropWhile p := by
  induction l with
  | nil => rfl
  | cons c cs ih =>
    by_cases h : p c = true
    · simp [List.takeWhile_cons, List.dropWhile_cons, h, ih]
    · simp [List.takeWhile_cons, List.dropWhile_cons, h]

theorem dropWhile_append_all (p : Char → Bool) (ws l : List Char)
    (hws : ∀ c ∈ ws, p c = true) :
    (ws ++ l).dropWhile p = l.dropWhile p := by
  rw [List.dropWhile_append, List.dropWhile_eq_nil_iff.mpr hws]
  simp

theorem takeWhile_append_all (p : Char → Bool) (fn : List Char) (x : Char)
    (rest : List Char) (hfn : ∀ c ∈ fn, p c = true) (hx : p x = false) :
    (fn ++ x :: rest).takeWhile p = fn := by
  induction fn with
  | nil => simp [List.takeWhile_cons, hx]
  | cons c cs ih =>
    have hc : p c = true := hfn c (by simp)
    have ih2 := ih (fun d hd => hfn d (by simp [hd]))
    simp [List.takeWhile_cons, hc, ih2]

theorem interpGo_nil (tar : List TarMember) (aid : String) (fuel : Nat)
    (atLS : Bool) (skip : List String) :
    interpGo tar aid fuel atLS [] skip = ([], skip) := by
  cases fuel <;> rfl

theorem matchInputAt_ws (ws fn : List Char)
    (hws : ∀ c ∈ ws, pyIsSpace c = true)
    (hfn : ∀ c ∈ fn, c ≠ '\x7d' ∧ c ≠ '\n') :
    matchInputAt (ws ++ (inputHead ++ fn ++ ['\x7d'])) =
      some (inputHead ++ fn ++ ['\x7d'], fn, []) := by
  have hdrop : (ws ++ (inputHead ++ fn ++ ['\x7d'])).dropWhile pyIsSpace
      = inputHead ++ fn ++ ['\x7d'] := by
    rw [dropWhile_append_all pyIsSpace ws _ hws]
    rfl
  have hpre : inputHead.isPrefixOf (inputHead ++ fn ++ ['\x7d']) = true := by
    rw [List.append_assoc]; exact isPrefixOf_append_self _ _
  have hdrop7 : (inputHead ++ fn ++ ['\x7d']).drop 7 = fn ++ ['\x7d'] := by
    rw [List.append_assoc]
    have h7 : inputHead.length = 7 := rfl
    rw [← h7, List.drop_left]
  have htake : (fn ++ ['\x7d']).takeWhile (fun c => c ≠ '\x7d' && c ≠ '\n') = fn := by
    have : (fn ++ '\x7d' :: []).takeWhile (fun c => c ≠ '\x7d' && c ≠ '\n') = fn := by
      apply takeWhile_append_all
      · intro c hc
        have := hfn c hc
        simp [this.1, this.2]
      · simp
    simpa using this
  have hdropfn : (fn ++ ['\x7d']).drop fn.length = ['\x7d'] := List.drop_left _ _
  simp only [matchInputAt, hdrop, hpre, if_true, hdrop7, htake, hdropfn]

theorem hasInputMatchGo_succ (fuel : Nat) (atLS : Bool) (c : Char) (cs : List Char) :
    hasInputMatchGo (fuel + 1) atLS (c :: cs) =
      if atLS then
        match matchInputAt (c :: cs) with
        | some _ => true
        | none => hasInputMatchGo fuel (c = '\n') cs
      else hasInputMatchGo fuel (c = '\n') cs := rfl

theorem interpGo_succ (tar : List TarMember) (aid : String) (fuel : Nat)
    (atLS : Bool) (c : Char) (cs : List Char) (skip : List String) :
    interpGo tar aid (fuel + 1) atLS (c :: cs) skip =
      if atLS then
        match matchInputAt (c :: cs) with
        | some (cmd, fn, rest) =>
          let path := pyJoin aid (pySplitextRoot (String.mk fn) ++ ".tex")
          match tarGetMember tar path with
          | some m =>
            let contents := read_file m
            let (out, skip2) := interpGo tar aid fuel false rest (setAdd skip m.name)
            (contents.toList ++ out, skip2)
          | none =>
            let (out, skip2) := interpGo tar aid fuel false rest skip
            (cmd ++ out, skip2)
        | none =>
          let (out, skip2) := interpGo tar aid fuel (c = '\n') cs skip
          (c :: out, skip2)
      else
        let (out, skip2) := interpGo tar aid fuel (c = '\n') cs skip
        (c :: out, skip2) := rfl

theorem interpGo_no_match (tar : List TarMember) (aid : String) :
    ∀ (fuel : Nat) (atLS : Bool) (text : List Char) (skip : List String),
      text.length ≤ fuel → hasInputMatchGo fuel atLS text = false →
      interpGo tar aid fuel atLS text skip = (text, skip) := by
  intro fuel
  induction fuel with
  | zero =>
    intro atLS text skip hlen _
    cases text with
    | nil => rfl
    | cons c cs => simp at hlen
  | succ fuel ih =>
    intro atLS text skip hlen hno
    cases text with
    | nil => rfl
    | cons c cs =>
      have hlen2 : cs.length ≤ fuel := by
        rw [List.length_cons] at hlen
        exact Nat.le_of_succ_le_succ hlen
      rw [hasInputMatchGo_succ] at hno
      rw [interpGo_succ]
      by_cases hLS : atLS = true
      · rw [if_pos hLS] at hno ⊢
        cases hm : matchInputAt (c :: cs) with
        | some v =>
          rw [hm] at hno
          simp at hno
        | none =>
          rw [hm] at hno
          dsimp only at hno ⊢
          rw [ih (c = '\n') cs skip hlen2 hno]
      · rw [if_neg hLS] at hno ⊢
        rw [ih (c = '\n') cs skip hlen2 hno]

theorem replaceInputsGo_succ (baseDir : String) (fs : FileSys) (fuel : Nat)
    (c : Char) (cs : List Char) :
    replaceInputsGo baseDir fs (fuel + 1) (c :: cs) =
      match matchAlnumInputAt (c :: cs) with
      | some (fn, rest) =>
        let filename := if (String.mk fn).endsWith ".tex" then String.mk fn
                        else String.mk fn ++ ".tex"
        let filepath := pyJoin baseDir filename
        let repl := if fsExists fs filepath then (read_file_content filepath fs).toList
                    else inputHead ++ fn ++ ['\x7d']
        repl ++ replaceInputsGo baseDir fs fuel rest
      | none => c :: replaceInputsGo baseDir fs fuel cs := rfl

theorem hasAlnumInputGo_succ (fuel : Nat) (c : Char) (cs : List Char) :
    hasAlnumInputGo (fuel + 1) (c :: cs) =
      match matchAlnumInputAt (c :: cs) with
      | some _ => true
      | none => hasAlnumInputGo fuel cs := rfl

theorem matchAlnumInputAt_decomp (l fn rest : List Char)
    (h : matchAlnumInputAt l = some (fn, rest)) :
    l = inputHead ++ fn ++ '\x7d' :: rest := by
  unfold matchAlnumInputAt at h
  split at h
  case isTrue hp =>
    dsimp only at h
    split at h
    case isTrue => exact absurd h (by simp)
    case isFalse hne =>
      split at h
      case h_1 tail heq =>
        injection h with h2
        injection h2 with hfn hrest
        subst hfn; subst hrest
        obtain ⟨t, ht⟩ := List.isPrefixOf_iff_prefix.mp hp
        have hdrop : l.drop 7 = t := by
          rw [← ht]
          have h7 : inputHead.length = 7 := rfl
          rw [← h7, List.drop_left]
        rw [hdrop] at heq ⊢
        rw [drop_takeWhile_length] at heq
        have hta := List.takeWhile_append_dropWhile (p := isInputNameChar) (l := t)
        rw [heq] at hta
        rw [← ht]
        conv_lhs => rw [← hta]
        simp [List.append_assoc]
      case h_2 => exact absurd h (by simp)
  case isFalse => exact absurd h (by simp)

theorem matchAlnumInputAt_rest_lt (l fn rest : List Char)
    (h : matchAlnumInputAt l = some (fn, rest)) : rest.length < l.length := by
  rw [matchAlnumInputAt_decomp l fn rest h]
  simp [List.length_append]
  omega

theorem replaceInputsGo_no_match (baseDir : String) (fs : FileSys) :
    ∀ (fuel : Nat) (l : List Char), hasAlnumInputGo fuel l = false →
      replaceInputsGo baseDir fs fuel l = l := by
  intro fuel
  induction fuel with
  | zero => intro l _; rfl
  | succ fuel ih =>
    intro l hno
    cases l with
    | nil => rfl
    | cons c cs =>
      rw [hasAlnumInputGo_succ] at hno
      rw [replaceInputsGo_succ]
      cases hm : matchAlnumInputAt (c :: cs) with
      | some v =>
        rw [hm] at hno
        simp at hno
      | none =>
        rw [hm] at hno
        dsimp only at hno ⊢
        rw [ih cs hno]

theorem replaceInputsGo_fs_nil (baseDir : String) :
    ∀ (fuel : Nat) (l : List Char), l.length ≤ fuel →
      replaceInputsGo baseDir [] fuel l = l := by
  intro fuel
  induction fuel with
  | zero => intro l _; rfl
  | succ fuel ih =>
    intro l hlen
    cases l with
    | nil => rfl
    | cons c cs =>
      rw [replaceInputsGo_succ]
      cases hm : matchAlnumInputAt (c :: cs) with
      | some v =>
        obtain ⟨fn, rest⟩ := v
        have hdec := matchAlnumInputAt_decomp _ _ _ hm
        have hlt := matchAlnumInputAt_rest_lt _ _ _ hm
        have hrest : rest.length ≤ fuel := by
          rw [List.length_cons] at hlen
          rw [List.length_cons] at hlt
          omega
        dsimp only
        have hex : fsExists [] (pyJoin baseDir
            (if (String.mk fn).endsWith ".tex" then String.mk fn
             else String.mk fn ++ ".tex")) = false := rfl
        rw [hex]
        simp only [if_false, Bool.false_eq_true]
        rw [ih rest hrest, hdec]
        simp [List.append_assoc]
      | none =>
        dsimp only
        have hcs : cs.length ≤ fuel := by
          rw [List.length_cons] at hlen
          omega
        rw [ih cs hcs]

theorem interpGo_missing (tar : List TarMember) (aid : String) (ws fn : List Char)
    (skip : List String) (fuel : Nat)
    (hws : ∀ c ∈ ws, pyIsSpace c = true)
    (hfn : ∀ c ∈ fn, c ≠ '\x7d' ∧ c ≠ '\n')
    (hmiss : tarGetMember tar (pyJoin aid (pySplitextRoot (String.mk fn) ++ ".tex")) = none)
    (hfuel : 1 ≤ fuel) :
    interpGo tar aid fuel true (ws ++ (inputHead ++ fn ++ ['\x7d'])) skip
      = (inputHead ++ fn ++ ['\x7d'], skip) := by
  obtain ⟨fuel, rfl⟩ : ∃ k, fuel = k + 1 := ⟨fuel - 1, by omega⟩
  cases hl : ws ++ (inputHead ++ fn ++ ['\x7d']) with
  | nil =>
    exfalso
    have : inputHead ++ fn ++ ['\x7d'] = [] := (List.append_eq_nil.mp hl).2
    simp [inputHead] at this
  | cons c cs =>
    rw [interpGo_succ, if_pos rfl, ← hl, matchInputAt_ws ws fn hws hfn]
    dsimp only
    rw [hmiss]
    dsimp only
    rw [interpGo_nil]
    simp

/-- Claim C3, counterexample: on the input `" \input{missing}"` (one
leading space, target absent) the resolver output is
`"\input{missing}"` — the directive command is restored but the
leading whitespace consumed by the pattern is dropped, so the output is
NOT byte-identical to the source at that occurrence. -/
theorem C3_counterexample :
    interpolate_document " \\input\x7bmissing\x7d" [] [] "./a"
        = ("\\input\x7bmissing\x7d", []) ∧
    ("\\input\x7bmissing\x7d" : String) ≠ " \\input\x7bmissing\x7d" := by
  decide

/-- Claim C3 (amended): for an inclusion directive whose target is
missing, `replace_inputs` leaves the matched text byte-identical (its
pattern consumes no leading whitespace; with no file present it is the
identity), while `interpolate_document` splices back only the
`\input{...}` command group, dropping the leading whitespace its
pattern consumed; in both resolvers the exclusion set is unaltered
(`replace_inputs` has none, `interpolate_document` returns `skip`
unchanged). -/
theorem C3_missing_inclusion_target :
    (∀ (latex baseDir : String), replace_inputs latex baseDir [] = latex) ∧
    (∀ (ws fn : List Char) (tar : List TarMember) (skip : List String) (aid : String),
      (∀ c ∈ ws, pyIsSpace c = true) →
      (∀ c ∈ fn, c ≠ '\x7d' ∧ c ≠ '\n') →
      tarGetMember tar (pyJoin aid (pySplitextRoot (String.mk fn) ++ ".tex")) = none →
      interpolate_document (String.mk (ws ++ (inputHead ++ fn ++ ['\x7d']))) tar skip aid
        = (String.mk (inputHead ++ fn ++ ['\x7d']), skip)) := by
  constructor
  · intro latex baseDir
    unfold replace_inputs
    rw [replaceInputsGo_fs_nil baseDir _ _ (Nat.le_succ _)]
    exact string_mk_toList latex
  · intro ws fn tar skip aid hws hfn hmiss
    unfold interpolate_document
    dsimp only [String.toList]
    rw [interpGo_missing tar aid ws fn skip _ hws hfn hmiss (by simp)]

/-- Claim C3, witness for the amended theorem at a concrete input. -/
theorem C3_missing_inclusion_target_witness :
    interpolate_document (String.mk (' ' :: (inputHead ++ ('m' :: 'i' :: 's' :: 's' :: 'i' :: 'n' :: 'g' :: '\x7d' :: [])))) [] [] "./a"
      = (String.mk (inputHead ++ ('m' :: 'i' :: 's' :: 's' :: 'i' :: 'n' :: 'g' :: '\x7d' :: [])), []) := by
  have h := C3_missing_inclusion_target.2 [' ']
    ('m' :: 'i' :: 's' :: 's' :: 'i' :: 'n' :: 'g' :: [])
    [] [] "./a" (by decide) (by decide) (by decide)
  simpa using h

/-- Claim C9: a text with no occurrence of the inclusion-directive
pattern is returned unchanged by both resolvers (identity), and
therefore re-running `interpolate_document` on an already-resolved text
with no remaining directives is a no-op. -/
theorem C9_no_directive_identity :
    (∀ (contents : String) (tar : List TarMember) (skip : List String) (aid : String),
      hasInputDirective contents = false →
      interpolate_document contents tar skip aid = (contents, skip)) ∧
    (∀ (latex baseDir : String) (fs : FileSys),
      hasAlnumInputDirective latex = false →
      replace_inputs latex baseDir fs = latex) ∧
    (∀ (contents : String) (tar : List TarMember) (skip skip2 : List String) (aid : String),
      hasInputDirective (interpolate_document contents tar skip aid).1 = false →
      interpolate_document (interpolate_document contents tar skip aid).1 tar skip2 aid
        = ((interpolate_document contents tar skip aid).1, skip2)) := by
  have key : ∀ (contents : String) (tar : List TarMember) (skip : List String) (aid : String),
      hasInputDirective contents = false →
      interpolate_document contents tar skip aid = (contents, skip) := by
    intro contents tar skip aid h
    unfold interpolate_document
    rw [interpGo_no_match tar aid _ _ _ _ (Nat.le_succ _) h]
    simp [string_mk_toList]
  refine ⟨key, ?_, ?_⟩
  · intro latex baseDir fs h
    unfold replace_inputs
    rw [replaceInputsGo_no_match baseDir fs _ _ h]
    exact string_mk_toList latex
  · intro contents tar skip skip2 aid h
    exact key _ tar skip2 aid h

/-- Claim C9, witness: the identity at concrete directive-free inputs. -/
theorem C9_no_directive_identity_witness :
    interpolate_document "plain text" [] ["s"] "./a" = ("plain text", ["s"]) ∧
    replace_inputs "plain text" "b" [("x", some "y")] = "plain text" := by
  constructor
  · exact C9_no_directive_identity.1 "plain text" [] ["s"] "./a" (by decide)
  · exact C9_no_directive_identity.2.1 "plain text" "b" [("x", some "y")] (by decide)

/-- Claim C4: (a) the exclusion check accepts a filename exactly when
the set contains the filename itself or its extension-stripped form, so
a set entry `chapter1` blocks the member `chapter1.tex` just as
`chapter1.tex` does; (b) a member whose name is already in the
exclusion set when the loop reaches it is never emitted; (c) the spec's
scenario — root `main.tex` containing `\input{sec1}` with sibling
`sec1.tex` — yields exactly one output document in either member
order. -/
theorem C4_exclusion_set_invariant :
    (∀ (filename : String) (to_skip : List String),
      skip_file filename to_skip = true ↔
        filename ∈ to_skip ∨ pySplitextRoot filename ∈ to_skip) ∧
    (∀ (tar : List TarMember) (aid : String) (m : TarMember) (rest : List TarMember)
      (skip : List String), m.name ∈ skip →
      processMembers tar aid (m :: rest) skip = processMembers tar aid rest skip) ∧
    (processMembers tarMainSec "./a" tarMainSec [] = [("a", mainSecOut)] ∧
     processMembers tarMainSec "./a" [⟨"./a/sec1.tex", some "Sec one body"⟩,
       ⟨"./a/main.tex", some mainSecText⟩] [] = [("a", mainSecOut)]) := by
  refine ⟨?_, ?_, by decide, by decide⟩
  · intro filename to_skip
    simp [skip_file, contains_iff_mem]
  · intro tar aid m rest skip hmem
    have hsf : skip_file m.name skip = true := by
      rw [skip_file, (contains_iff_mem skip m.name).mpr hmem]
      rfl
    unfold processMembers
    rw [if_pos hsf]
    cases rest <;> rfl

/-- Claim C4, witness: part (b) applied at a concrete excluded member. -/
theorem C4_exclusion_set_invariant_witness :
    processMembers [] "./x" [⟨"./x/s.tex", some "t"⟩] ["./x/s.tex"]
      = processMembers [] "./x" [] ["./x/s.tex"] :=
  C4_exclusion_set_invariant.2.1 [] "./x" ⟨"./x/s.tex", some "t"⟩ [] ["./x/s.tex"]
    (by decide)

/-- Claim C8: a member whose bytes cannot be read or decoded yields the
empty string instead of an exception, in both readers; and processing
of a document containing such a member completes, splicing the empty
content for that member only (the unreadable `bad.tex` is inlined as
`""` and still excluded from standalone emission). -/
theorem C8_read_failure_empty :
    (∀ (name : String), read_file ⟨name, none⟩ = "") ∧
    (∀ (path : String) (fs : FileSys), fsLookup fs path = some none →
      read_file_content path fs = "") ∧
    (∀ (path : String) (fs : FileSys), fsLookup fs path = none →
      read_file_content path fs = "") ∧
    processMembers tarUnreadable "./a" tarUnreadable []
      = [("a", beginDocMarker ++ "\n\nEnd here")] := by
  refine ⟨fun name => rfl, ?_, ?_, by decide⟩
  · intro path fs h
    unfold read_file_content
    rw [h]
  · intro path fs h
    unfold read_file_content
    rw [h]

/-- Claim C8, witness: the readers at concrete failing entries. -/
theorem C8_read_failure_empty_witness :
    read_file_content "p" [("p", none)] = "" ∧ read_file_content "q" [] = "" := by
  constructor
  · exact C8_read_failure_empty.2.1 "p" [("p", none)] (by decide)
  · exact C8_read_failure_empty.2.2.1 "q" [] (by decide)

theorem processMembers_cons (tar : List TarMember) (aid : String) (info : TarMember)
    (rest : List TarMember) (skip : List String) :
    processMembers tar aid (info :: rest) skip =
      if skip_file info.name skip then processMembers tar aid rest skip
      else if isTopLevelTex aid info.name then
        if pyContains beginDocMarker (read_file info) then
          let (content, skip2) := interpolate_document (read_file info) tar skip aid
          (secondComp info.name, content) :: processMembers tar aid rest skip2
        else processMembers tar aid rest skip
      else if isSelfTex aid info.name then
        if pyContains beginDocMarker (read_file info) then
          let (content, skip2) := interpolate_document (read_file info) tar skip aid
          ((secondComp info.name).dropRight 4, content) :: processMembers tar aid rest skip2
        else processMembers tar aid rest skip
      else processMembers tar aid rest skip := rfl

/-- Claim C1, counterexample: an article holding two top-level `.tex`
members that both contain the document-start marker emits TWO
`(documentId, text)` pairs — the loop yields one output per qualifying
member and never picks a single representative. -/
theorem C1_counterexample :
    processMembers tarTwoRoots "./a" tarTwoRoots []
        = [("a", rootTex), ("a", rootTex)] ∧
    ¬ (processMembers tarTwoRoots "./a" tarTwoRoots []).length ≤ 1 := by
  decide

/-- Claim C1 (amended): per article, the loop emits one output for each
member that qualifies when reached (top-level `.tex` or article-level
`.tex` containing the marker, not excluded yet); in particular it emits
nothing if and only if no member qualifies — but several qualifying
members give several outputs, with no deterministic single pick. -/
theorem C1_no_output_iff_no_root :
    ∀ (tar : List TarMember) (aid : String) (ms : List TarMember),
      processMembers tar aid ms [] = [] ↔ ∀ m ∈ ms, isRootCandidate aid m = false := by
  intro tar aid ms
  induction ms with
  | nil => simp [processMembers]
  | cons info rest ih =>
    have hsf : skip_file info.name [] = false := rfl
    rw [processMembers_cons, hsf]
    simp only [Bool.false_eq_true, if_false]
    by_cases hT : isTopLevelTex aid info.name = true
    · rw [if_pos hT]
      by_cases hM : pyContains beginDocMarker (read_file info) = true
      · rw [if_pos hM]
        rcases hI : interpolate_document (read_file info) tar [] aid with ⟨content, skip2⟩
        constructor
        · intro h; exact absurd h (by simp)
        · intro h
          exact absurd (h info (by simp)) (by simp [isRootCandidate, hT, hM])
      · rw [if_neg hM]
        have hMf : pyContains beginDocMarker (read_file info) = false := by
          simpa using hM
        have hcand : isRootCandidate aid info = false := by
          simp [isRootCandidate, hMf]
        simp [List.forall_mem_cons, hcand, ih]
    · rw [if_neg hT]
      by_cases hS : isSelfTex aid info.name = true
      · rw [if_pos hS]
        by_cases hM : pyContains beginDocMarker (read_file info) = true
        · rw [if_pos hM]
          rcases hI : interpolate_document (read_file info) tar [] aid with ⟨content, skip2⟩
          constructor
          · intro h; exact absurd h (by simp)
          · intro h
            exact absurd (h info (by simp)) (by simp [isRootCandidate, hS, hM])
        · rw [if_neg hM]
          have hMf : pyContains beginDocMarker (read_file info) = false := by
            simpa using hM
          have hcand : isRootCandidate aid info = false := by
            simp [isRootCandidate, hMf]
          simp [List.forall_mem_cons, hcand, ih]
      · rw [if_neg hS]
        have hcand : isRootCandidate aid info = false := by
          simp [isRootCandidate, hT, hS]
        simp [List.forall_mem_cons, hcand, ih]

/-- Claim C1, witness for the amended characterization: an article
with a single non-`.tex` member emits nothing. -/
theorem C1_no_output_iff_no_root_witness :
    processMembers [] "./a" [⟨"./a/x.txt", some "t"⟩] [] = [] :=
  (C1_no_output_iff_no_root [] "./a" [⟨"./a/x.txt", some "t"⟩]).mpr (by decide)

/-- Claim C2, counterexample: for an article directory `art1` whose
root file is `main.tex`, the emitted documentId is `"art1"` — the
article subdirectory name — not the root file's name with its
extension stripped (`"main"`). -/
theorem C2_counterexample :
    processMembers tarMainOnly "./art1" tarMainOnly [] = [("art1", rootTex)] ∧
    pySplitextRoot "main.tex" = "main" ∧
    ("art1" : String) ≠ "main" := by
  decide

/-- Claim C2 (amended): every emitted documentId comes from some member
of the article, and equals the member name's SECOND path component —
unmodified in the subdirectory branch (hf-to-dolma.py:196), and with
the final four characters (the `.tex` extension) removed in the
article-level-file branch (hf-to-dolma.py:210).  Only for the latter
branch is the id the file's name with its extension stripped. -/
theorem C2_document_id_shape :
    ∀ (tar : List TarMember) (aid : String) (ms : List TarMember) (skip : List String)
      (o : String × String), o ∈ processMembers tar aid ms skip →
      ∃ m ∈ ms,
        (isTopLevelTex aid m.name = true ∧ o.1 = secondComp m.name) ∨
        (isTopLevelTex aid m.name = false ∧ isSelfTex aid m.name = true ∧
          o.1 = (secondComp m.name).dropRight 4) := by
  intro tar aid ms
  induction ms with
  | nil => intro skip o ho; simp [processMembers] at ho
  | cons info rest ih =>
    intro skip o ho
    rw [processMembers_cons] at ho
    by_cases hsf : skip_file info.name skip = true
    · rw [if_pos hsf] at ho
      obtain ⟨m, hm, hp⟩ := ih skip o ho
      exact ⟨m, by simp [hm], hp⟩
    · rw [if_neg hsf] at ho
      by_cases hT : isTopLevelTex aid info.name = true
      · rw [if_pos hT] at ho
        by_cases hM : pyContains beginDocMarker (read_file info) = true
        · rw [if_pos hM] at ho
          rcases hI : interpolate_document (read_file info) tar skip aid with ⟨content, skip2⟩
          rw [hI] at ho
          dsimp only at ho
          rcases List.mem_cons.mp ho with h1 | h2
          · refine ⟨info, by simp, Or.inl ⟨hT, ?_⟩⟩
            rw [h1]
          · obtain ⟨m, hm, hp⟩ := ih skip2 o h2
            exact ⟨m, by simp [hm], hp⟩
        · rw [if_neg hM] at ho
          obtain ⟨m, hm, hp⟩ := ih skip o ho
          exact ⟨m, by simp [hm], hp⟩
      · rw [if_neg hT] at ho
        by_cases hS : isSelfTex aid info.name = true
        · rw [if_pos hS] at ho
          by_cases hM : pyContains beginDocMarker (read_file info) = true
          · rw [if_pos hM] at ho
            rcases hI : interpolate_document (read_file info) tar skip aid with ⟨content, skip2⟩
            rw [hI] at ho
            dsimp only at ho
            rcases List.mem_cons.mp ho with h1 | h2
            · refine ⟨info, by simp, Or.inr ⟨by simpa using hT, hS, ?_⟩⟩
              rw [h1]
            · obtain ⟨m, hm, hp⟩ := ih skip2 o h2
              exact ⟨m, by simp [hm], hp⟩
          · rw [if_neg hM] at ho
            obtain ⟨m, hm, hp⟩ := ih skip o ho
            exact ⟨m, by simp [hm], hp⟩
        · rw [if_neg hS] at ho
          obtain ⟨m, hm, hp⟩ := ih skip o ho
          exact ⟨m, by simp [hm], hp⟩

/-- Claim C2, witness for the amended theorem: the single output of the
`tarMainOnly` article carries the subdirectory-derived id. -/
theorem C2_document_id_shape_witness :
    ∃ m ∈ tarMainOnly,
      (isTopLevelTex "./art1" m.name = true ∧ ("art1" : String) = secondComp m.name) ∨
      (isTopLevelTex "./art1" m.name = false ∧ isSelfTex "./art1" m.name = true ∧
        ("art1" : String) = (secondComp m.name).dropRight 4) := by
  have h := C2_document_id_shape tarMainOnly "./art1" tarMainOnly [] ("art1", rootTex)
    (by decide)
  exact h

/-- Claim C5: a reference-use occurrence is rewritten all-or-nothing:
with every (stripped) key of the comma-separated list present in the
table, the occurrence becomes the comma-separated labels — bare for the
narrative variants `citet`/`citealt`/`citealp`, bracketed for every
other variant — and with any key absent the occurrence is returned
verbatim.  The closed conjuncts run `parse_citations` end to end on the
spec's examples: `\citep{a,b}` with `b` undefined stays unchanged, and
with labels `1`,`2` renders `[1, 2]` (or `1, 2` for `\citet`). -/
theorem C5_reference_use_all_or_nothing :
    (∀ (bibitems : List (String × String)) (variant keysStr : List Char),
      (((pySplitChar ',' keysStr).map (fun k => String.mk (pyStripList k))).all
          (fun k => (tblLookup bibitems k).isSome) = true →
        replace_cite bibitems variant keysStr =
          (if narrativeVariants.contains (String.mk variant) then
            (String.intercalate ", "
              (((pySplitChar ',' keysStr).map (fun k => String.mk (pyStripList k))).map
                (fun k => (tblLookup bibitems k).getD ""))).toList
          else
            '[' :: (String.intercalate ", "
              (((pySplitChar ',' keysStr).map (fun k => String.mk (pyStripList k))).map
                (fun k => (tblLookup bibitems k).getD ""))).toList ++ [']'])) ∧
      (((pySplitChar ',' keysStr).map (fun k => String.mk (pyStripList k))).all
          (fun k => (tblLookup bibitems k).isSome) = false →
        replace_cite bibitems variant keysStr
          = '\\' :: variant ++ '\x7b' :: keysStr ++ ['\x7d'])) ∧
    parse_citations "\\bibitem\x7ba\x7d\\bibitem\x7bb\x7dx \\citep\x7ba,b\x7d"
      = "[1][2]x [1, 2]" ∧
    parse_citations "\\bibitem\x7ba\x7d x \\citep\x7ba,b\x7d"
      = "[1] x \\citep\x7ba,b\x7d" ∧
    parse_citations "\\bibitem\x7ba\x7d\\bibitem\x7bb\x7d x \\citet\x7ba,b\x7d"
      = "[1][2] x 1, 2" := by
  refine ⟨?_, by decide, by decide, by decide⟩
  intro bibitems variant keysStr
  constructor
  · intro h
    unfold replace_cite
    dsimp only
    rw [h]
    simp only [if_true]
  · intro h
    unfold replace_cite
    dsimp only
    rw [h]
    simp only [Bool.false_eq_true, if_false]

/-- Claim C5, witness: both branches of the general conjunct at
concrete inputs. -/
theorem C5_reference_use_all_or_nothing_witness :
    replace_cite [("a", "1")] ('c' :: 'i' :: 't' :: 'e' :: 'p' :: []) ('a' :: [])
      = ('[' :: '1' :: ']' :: []) ∧
    replace_cite [("a", "1")] ('c' :: 'i' :: 't' :: 'e' :: 'p' :: []) ('a' :: ',' :: 'b' :: [])
      = ('\\' :: 'c' :: 'i' :: 't' :: 'e' :: 'p' :: '\x7b' :: 'a' :: ',' :: 'b' :: '\x7d' :: []) := by
  constructor
  · have h := (C5_reference_use_all_or_nothing.1 [("a", "1")]
      ('c' :: 'i' :: 't' :: 'e' :: 'p' :: []) ('a' :: [])).1 (by decide)
    rw [h]
    decide
  · have h := (C5_reference_use_all_or_nothing.1 [("a", "1")]
      ('c' :: 'i' :: 't' :: 'e' :: 'p' :: []) ('a' :: ',' :: 'b' :: [])).2 (by decide)
    rw [h]
    decide

theorem any_fst_iff (d : List (String × Option String)) (k : String) :
    (d.any fun e => e.1 = k) = true ↔ k ∈ d.map Prod.fst := by
  simp [List.any_eq_true, List.mem_map]

theorem upsert_map_fst_mem (d : List (String × Option String)) (k : String)
    (v : Option String) (h : k ∈ d.map Prod.fst) :
    (upsert d k v).map Prod.fst = d.map Prod.fst := by
  unfold upsert
  rw [if_pos ((any_fst_iff d k).mpr h)]
  rw [List.map_map]
  apply List.map_congr_left
  intro e _
  by_cases he : e.1 = k
  · simp [he]
  · simp [he]

theorem upsert_map_fst_new (d : List (String × Option String)) (k : String)
    (v : Option String) (h : k ∉ d.map Prod.fst) :
    (upsert d k v).map Prod.fst = d.map Prod.fst ++ [k] := by
  unfold upsert
  rw [if_neg (fun hc => h ((any_fst_iff d k).mp hc))]
  simp

theorem foldl_upsert_nodup (ms : List (List Char × List Char)) :
    ∀ (d : List (String × Option String)), (d.map Prod.fst).Nodup →
      ((ms.foldl (fun d lk =>
          upsert d (String.mk lk.2) (if lk.1.isEmpty then none else some (String.mk lk.1))) d).map
        Prod.fst).Nodup := by
  induction ms with
  | nil => intro d hd; simpa using hd
  | cons lk tl ih =>
    intro d hd
    rw [List.foldl_cons]
    apply ih
    by_cases h : String.mk lk.2 ∈ d.map Prod.fst
    · rw [upsert_map_fst_mem _ _ _ h]; exact hd
    · rw [upsert_map_fst_new _ _ _ h]
      simp [List.nodup_append, hd, h]

theorem buildBib_keys_nodup (ms : List (List Char × List Char)) :
    ((buildBib ms).map Prod.fst).Nodup := by
  unfold buildBib
  exact foldl_upsert_nodup ms [] (by simp)

theorem tblLookup_cons (k0 : String) (x : String) (tl : List (String × String))
    (k : String) :
    tblLookup ((k0, x) :: tl) k = if k0 = k then some x else tblLookup tl k := by
  unfold tblLookup
  rw [List.filterMap_cons]
  by_cases h : k0 = k
  · simp [h]
  · simp [h]

theorem bibValue_cons (k0 : String) (x : Option String)
    (tl : List (String × Option String)) (k : String) :
    bibValue ((k0, x) :: tl) k = if k0 = k then some x else bibValue tl k := by
  unfold bibValue
  rw [List.filterMap_cons]
  by_cases h : k0 = k
  · simp [h]
  · simp [h]

theorem labelAllFrom_lookup (d : List (String × Option String)) :
    ∀ (n i : Nat) (k : String) (v : Option String),
      (d.map Prod.fst).Nodup → d.get? i = some (k, v) →
      tblLookup (labelAllFrom n d) k = some (labelEntry (n + i) v) := by
  induction d with
  | nil => intro n i k v _ h; simp at h
  | cons e tl ih =>
    intro n i k v hnd h
    obtain ⟨k0, v0⟩ := e
    rw [List.map_cons, List.nodup_cons] at hnd
    cases i with
    | zero =>
      rw [List.get?_cons_zero] at h
      injection h with h2
      injection h2 with hk hv
      subst hk; subst hv
      unfold labelAllFrom
      rw [tblLookup_cons, if_pos rfl, Nat.add_zero]
    | succ j =>
      rw [List.get?_cons_succ] at h
      have hkmem : k ∈ tl.map Prod.fst :=
        List.mem_map.mpr ⟨(k, v), List.get?_mem h, rfl⟩
      have hne : k0 ≠ k := fun he => hnd.1 (he ▸ hkmem)
      unfold labelAllFrom
      rw [tblLookup_cons, if_neg hne, ih (n + 1) j k v hnd.2 h]
      have harith : n + 1 + j = n + (j + 1) := by omega
      rw [harith]

theorem bibValue_upsert_self (d : List (String × Option String)) (k : String)
    (v : Option String) (h : k ∈ d.map Prod.fst) :
    bibValue (upsert d k v) k = some v := by
  unfold upsert
  rw [if_pos ((any_fst_iff d k).mpr h)]
  induction d with
  | nil => simp at h
  | cons e tl ih =>
    obtain ⟨k0, v0⟩ := e
    by_cases hke : k0 = k
    · subst hke
      rw [List.map_cons]
      dsimp only
      rw [if_pos rfl, bibValue_cons, if_pos rfl]
    · rw [List.map_cons]
      dsimp only
      rw [if_neg hke, bibValue_cons, if_neg hke]
      apply ih
      rcases List.mem_map.mp h with ⟨e2, he2, hk2⟩
      rcases List.mem_cons.mp he2 with h1 | h2
      · exfalso; rw [h1] at hk2; exact hke hk2
      · exact List.mem_map.mpr ⟨e2, h2, hk2⟩

/-- Claim C6: in the table built from the extracted reference
definitions, every key appears exactly once (the key list is
duplicate-free and keeps first-seen order); an entry whose final raw
label is absent is labelled with the decimal of its 1-based position in
that key list; and appending a duplicate occurrence of a key leaves the
key list (hence every ordinal) unchanged while overwriting that key's
raw-label entry.  The closed conjunct is the spec's example: unlabeled
definitions `a, b, c` receive labels `1, 2, 3`. -/
theorem C6_reference_table_build :
    (∀ (ms : List (List Char × List Char)), ((buildBib ms).map Prod.fst).Nodup) ∧
    (∀ (ms : List (List Char × List Char)) (i : Nat) (k : String),
      (buildBib ms).get? i = some (k, none) →
      tblLookup (labelAllFrom 0 (buildBib ms)) k = some (toString (i + 1))) ∧
    (∀ (ms : List (List Char × List Char)) (lab key : List Char),
      String.mk key ∈ (buildBib ms).map Prod.fst →
      (buildBib (ms ++ [(lab, key)])).map Prod.fst = (buildBib ms).map Prod.fst ∧
      bibValue (buildBib (ms ++ [(lab, key)])) (String.mk key)
        = some (if lab.isEmpty then none else some (String.mk lab))) ∧
    citationTable "\\bibitem\x7ba\x7d\\bibitem\x7bb\x7d\\bibitem\x7bc\x7d"
      = [("a", "1"), ("b", "2"), ("c", "3")] := by
  refine ⟨buildBib_keys_nodup, ?_, ?_, by decide⟩
  · intro ms i k h
    rw [labelAllFrom_lookup (buildBib ms) 0 i k none (buildBib_keys_nodup ms) h]
    simp [labelEntry]
  · intro ms lab key hmem
    have happ : buildBib (ms ++ [(lab, key)]) = upsert (buildBib ms) (String.mk key)
        (if lab.isEmpty then none else some (String.mk lab)) := by
      unfold buildBib
      rw [List.foldl_append]
      rfl
    rw [happ]
    exact ⟨upsert_map_fst_mem _ _ _ hmem, bibValue_upsert_self _ _ _ hmem⟩

/-- Claim C6, witness: the ordinal fallback and the duplicate-overwrite
conjuncts at concrete tables. -/
theorem C6_reference_table_build_witness :
    tblLookup (labelAllFrom 0 (buildBib [([], 'a' :: [])])) "a" = some (toString (0 + 1)) ∧
    (buildBib ([([], 'a' :: [])] ++ [(('L' :: []), 'a' :: [])])).map Prod.fst
        = (buildBib [([], 'a' :: [])]).map Prod.fst := by
  constructor
  · exact C6_reference_table_build.2.1 [([], 'a' :: [])] 0 "a" (by decide)
  · exact (C6_reference_table_build.2.2.1 [([], 'a' :: [])] ('L' :: []) ('a' :: [])
      (by decide)).1

theorem mem_of_getLast?_eq (l : List Nat) (a : Nat) (h : l.getLast? = some a) :
    a ∈ l := by
  induction l with
  | nil => simp at h
  | cons x xs ih =>
    cases xs with
    | nil =>
      simp at h
      simp [h]
    | cons y ys =>
      rw [List.getLast?_cons_cons] at h
      exact List.mem_cons_of_mem x (ih h)

theorem mem_of_head?_eq (l : List Char) (a : Char) (h : l.head? = some a) :
    a ∈ l := by
  cases l with
  | nil => simp at h
  | cons x xs =>
    simp at h
    simp [h]

/-- Claim C7, counterexample: the raw label `"Smith 2020"` fits the
claim's pattern (author list, then a 4-digit year, year OPTIONALLY in
parentheses, author portion non-empty), so the claim predicts the label
`"Smith, 2020"`; the code's pattern requires a literal `(` before the
year, the search fails, and the entry falls back to the ordinal
(`"1"` at position 0). -/
theorem C7_counterexample :
    claimAuthorYear "Smith 2020".toList
        = some ("Smith ".toList, "2020".toList) ∧
    String.mk (pyStripList "Smith ".toList) ++ ", " ++ String.mk "2020".toList
        = "Smith, 2020" ∧
    labelEntry 0 (some "Smith 2020") = "1" ∧
    ("1" : String) ≠ "Smith, 2020" := by
  decide

/-- Claim C7 (amended): raw labels are normalized (line breaks to
single spaces, surrounding braces stripped) and searched with the
pattern `(.+)\((\d{4})\)?(.+)?`, whose year group must be preceded by a
literal `(` (only the closing parenthesis is optional): a successful
search therefore implies a `(` occurs in the label, `"Smith, J. (2020)"`
renders as `"Smith, J., 2020"` at every ordinal, `"Smith 2020"` (no
parentheses) fails the search, and any label whose search fails falls
back to the key's 1-based ordinal. -/
theorem C7_author_year_label :
    (∀ (n : Nat), labelEntry n (some "Smith, J. (2020)") = "Smith, J., 2020") ∧
    (∀ (l : List Char), (labelSearch l).isSome = true → '(' ∈ l) ∧
    labelSearch "Smith 2020".toList = none ∧
    (∀ (n : Nat) (lab : String), labelSearch (normalizeLabel lab).toList = none →
      labelEntry n (some lab) = toString (n + 1)) := by
  refine ⟨?_, ?_, by decide, ?_⟩
  · intro n
    have h : labelSearch (normalizeLabel "Smith, J. (2020)").toList
        = some ("Smith, J. ".toList, "2020".toList) := by decide
    unfold labelEntry
    dsimp only
    rw [h]
    dsimp only
    rw [if_neg (by decide)]
    decide
  · intro l h
    unfold labelSearch at h
    cases hx : ((List.range l.length).filter (yearCand l)).getLast? with
    | none => rw [hx] at h; simp at h
    | some t =>
      have ht : t ∈ (List.range l.length).filter (yearCand l) :=
        mem_of_getLast?_eq _ _ hx
      have hc : yearCand l t = true := (List.mem_filter.mp ht).2
      unfold yearCand at hc
      simp only [Bool.and_eq_true] at hc
      have hhead : (l.drop t).head? = some '(' := by
        have := hc.1.1.2
        simpa using this
      exact List.mem_of_mem_drop (mem_of_head?_eq _ _ hhead)
  · intro n lab h
    unfold labelEntry
    dsimp only
    rw [h]

/-- Claim C7, witness for the amended theorem: the paren-requirement
and ordinal-fallback conjuncts at concrete labels. -/
theorem C7_author_year_label_witness :
    labelEntry 0 (some "Smith, J. (2020)") = "Smith, J., 2020" ∧
    ('(' ∈ "A (1999)".toList) ∧
    labelEntry 4 (some "no year here") = toString (4 + 1) := by
  refine ⟨C7_author_year_label.1 0, ?_, ?_⟩
  · exact C7_author_year_label.2.1 "A (1999)".toList (by decide)
  · exact C7_author_year_label.2.2.2 4 "no year here" (by decide)

theorem listHasInfix_eq_subIdx (needle : List Char) :
    ∀ (hay : List Char), listHasInfix needle hay = (subIdx needle hay).isSome := by
  intro hay
  induction hay with
  | nil =>
    unfold listHasInfix subIdx
    by_cases h : needle.isEmpty = true
    · simp [h]
    · simp [h]
  | cons c cs ih =>
    unfold listHasInfix subIdx
    by_cases h : needle.isPrefixOf (c :: cs) = true
    · simp [h]
    · simp [h, ih]

theorem pySplitGo_succ (sep : List Char) (fuel : Nat) (s : List Char) :
    pySplitGo sep (fuel + 1) s =
      match subIdx sep s with
      | none => [s]
      | some i => s.take i :: pySplitGo sep fuel (s.drop (i + sep.length)) := rfl

theorem subIdx_some_prefix (needle : List Char) :
    ∀ (hay : List Char) (i : Nat), subIdx needle hay = some i →
      needle.isPrefixOf (hay.drop i) = true := by
  intro hay
  induction hay with
  | nil =>
    intro i h
    unfold subIdx at h
    by_cases he : needle.isEmpty = true
    · rw [if_pos he] at h
      injection h with h2
      subst h2
      simp at he
      simp [he]
    · rw [if_neg he] at h
      exact Option.noConfusion h
  | cons c cs ih =>
    intro i h
    unfold subIdx at h
    by_cases hp : needle.isPrefixOf (c :: cs) = true
    · rw [if_pos hp] at h
      injection h with h2
      subst h2
      simpa using hp
    · rw [if_neg hp] at h
      cases hs : subIdx needle cs with
      | none => rw [hs] at h; simp at h
      | some i0 =>
        rw [hs] at h
        simp at h
        subst h
        simpa using ih i0 hs

/-- Claim C10: when the document-start marker occurs, the split step of
`extract_text_from_latex` keeps exactly the segment strictly after the
first occurrence of the marker and — when the marker occurs again in
the remainder (non-overlapping scan) — strictly before that second
occurrence; the preamble before the marker, and any text from the
second occurrence on, are discarded. -/
theorem C10_marker_segment :
    ∀ (l : List Char) (i : Nat), subIdx beginDocMarker.toList l = some i →
      begin_document_split (String.mk l)
        = String.mk
            (match subIdx beginDocMarker.toList (l.drop (i + beginDocMarker.toList.length)) with
             | none => l.drop (i + beginDocMarker.toList.length)
             | some j => (l.drop (i + beginDocMarker.toList.length)).take j) := by
  intro l i h
  have hml : beginDocMarker.toList.length = 16 := rfl
  have hki : i + 16 ≤ l.length := by
    have hpre := subIdx_some_prefix beginDocMarker.toList l i h
    obtain ⟨t, ht⟩ := List.isPrefixOf_iff_prefix.mp hpre
    have hlen : beginDocMarker.toList.length ≤ (l.drop i).length := by
      rw [← ht]; simp
    rw [List.length_drop, hml] at hlen
    omega
  obtain ⟨k, hk⟩ : ∃ k, l.length = k + 1 := ⟨l.length - 1, by omega⟩
  have hc : pyContains beginDocMarker (String.mk l) = true := by
    show listHasInfix beginDocMarker.toList l = true
    rw [listHasInfix_eq_subIdx, h]
    rfl
  unfold begin_document_split
  rw [if_pos hc]
  show String.mk ((pySplitGo beginDocMarker.toList (l.length + 1) l).getD 1 []) = _
  rw [hk, pySplitGo_succ, h]
  dsimp only
  cases hr : subIdx beginDocMarker.toList (l.drop (i + beginDocMarker.toList.length)) with
  | none =>
    rw [pySplitGo_succ, hr]
    simp [List.getD]
  | some j =>
    rw [pySplitGo_succ, hr]
    simp [List.getD]

/-- Claim C10, witness: a text with a preamble, two marker occurrences
and a trailing part keeps exactly the in-between body. -/
theorem C10_marker_segment_witness :
    begin_document_split (String.mk ("pre".toList ++ beginDocMarker.toList ++
        "body".toList ++ beginDocMarker.toList ++ "post".toList)) = "body" := by
  have h := C10_marker_segment ("pre".toList ++ beginDocMarker.toList ++
    "body".toList ++ beginDocMarker.toList ++ "post".toList) 3 (by decide)
  rw [h]
  decide
